import Mathlib

/-!
# Embedding examples of go-llama.cpp: subprocess wrapper and in-process client

A shallow embedding of `examples/embeddings_wrapper.go` and `examples/embeddings.go`.

Go strings are modelled as lists of Unicode code points (`GoString`), i.e. as the
decoding of valid UTF-8 text.  Calls into the Go standard library are modelled by
small functions named after the library function (`stringsSplit`, `stringsFields`, ...).
`strconv.ParseFloat(_, 32)`, `fmt.Printf("%.6f", _)` and `json.MarshalIndent` work on
binary floating point; they enter the model as parameters (`pf`, `fmtF`, `marshal`)
over an arbitrary value type `F`, so every general theorem holds for every
behaviour of these library functions.  The text rendering is stated for `GoFloat32`,
the values of a Go `float32`, and `sprintf6`, the form `%.6f` gives them.
-/

set_option linter.unusedVariables false

deriving instance DecidableEq for Except

namespace GoLlama

/-- A Go string, as the sequence of its code points. -/
abbrev GoString := List Char

/-! ## The parts of the Go standard library used by the examples -/

/-- Go `unicode.IsSpace`: the Unicode White_Space property. -/
def isSpace (c : Char) : Bool :=
  let n := c.toNat
  (9 ≤ n && n ≤ 13) || n == 32 || n == 0x85 || n == 0xA0 || n == 0x1680 ||
    (0x2000 ≤ n && n ≤ 0x200A) || n == 0x2028 || n == 0x2029 || n == 0x202F ||
    n == 0x205F || n == 0x3000

/-- Go `strings.Split(s, sep)` for a one-character separator: the pieces between the
separators; a string without separator (the empty string too) gives one piece. -/
def stringsSplit (sep : Char) : GoString → List GoString
  | [] => [[]]
  | c :: cs =>
    if c = sep then [] :: stringsSplit sep cs
    else
      match stringsSplit sep cs with
      | [] => [[c]]
      | l :: ls => (c :: l) :: ls

/-- Go `strings.HasPrefix(s, prefix)`. -/
def stringsHasPrefix (s pre : GoString) : Bool :=
  pre.isPrefixOf s

/-- Go `strings.TrimPrefix(s, prefix)`: `s` without the leading `prefix`, or `s` itself
when it does not start with `prefix`. -/
def stringsTrimPrefix (s pre : GoString) : GoString :=
  if stringsHasPrefix s pre then s.drop pre.length else s

/-- Go `strings.TrimSpace(s)`: all leading and trailing white space removed. -/
def stringsTrimSpace (s : GoString) : GoString :=
  ((s.dropWhile isSpace).reverse.dropWhile isSpace).reverse

/-- The scanning loop of Go `strings.Fields`: `cur` holds the field being read,
reversed. -/
def fieldsAux : GoString → GoString → List GoString
  | cur, [] => if cur.isEmpty then [] else [cur.reverse]
  | cur, c :: cs =>
    if isSpace c then
      if cur.isEmpty then fieldsAux [] cs else cur.reverse :: fieldsAux [] cs
    else fieldsAux (c :: cur) cs

/-- Go `strings.Fields(s)`: the maximal runs of non-space characters of `s`, in order. -/
def stringsFields (s : GoString) : List GoString :=
  fieldsAux [] s

/-- Go `strconv.Itoa`. -/
def strconvItoa (n : Int) : GoString :=
  (toString n).toList

/-- Go `strings.Join(elems, "")`. -/
def stringsJoin (elems : List GoString) : GoString :=
  elems.foldl (fun acc e => acc ++ e) []

/-- A Go string literal. -/
def str (s : String) : GoString := s.toList

/-! ## `parseEmbeddingsOutput` -/

/-- The literal the embedding line starts with. -/
def marker : GoString := str "embedding 0:"

/-- The message of the error returned at the end of `parseEmbeddingsOutput`. -/
def noEmbeddingsMsg : GoString := str "no embeddings found in output"

/-- The inner loop of `parseEmbeddingsOutput` (`for _, part := range parts`): a part is
converted with `strconv.ParseFloat(part, 32)`, here `pf`, which gives `none` when Go
returns an error; such a part is skipped, a value is appended. -/
def parseParts {F : Type} (pf : GoString → Option F) (parts : List GoString) : List F :=
  parts.foldl
    (fun embeddings part =>
      match pf part with
      | none => embeddings
      | some val => embeddings ++ [val])
    []

/-- The body run on a line that starts with the marker: the numbers part, trimmed,
split into fields, each field converted. -/
def parseMarkerLine {F : Type} (pf : GoString → Option F) (line : GoString) : List F :=
  let numbersStr := stringsTrimPrefix line marker
  let numbersStr := stringsTrimSpace numbersStr
  let parts := stringsFields numbersStr
  parseParts pf parts

/-- The outer loop of `parseEmbeddingsOutput` (`for _, line := range lines`) followed by
the final `return nil, fmt.Errorf(...)`. -/
def parseEmbeddingsLines {F : Type} (pf : GoString → Option F) :
    List GoString → Except GoString (List F)
  | [] => Except.error noEmbeddingsMsg
  | line :: rest =>
    if stringsHasPrefix line marker then
      let embeddings := parseMarkerLine pf line
      if embeddings.length > 0 then Except.ok embeddings
      else parseEmbeddingsLines pf rest
    else parseEmbeddingsLines pf rest

/-- Go `parseEmbeddingsOutput(output)`. -/
def parseEmbeddingsOutput {F : Type} (pf : GoString → Option F) (output : GoString) :
    Except GoString (List F) :=
  let lines := stringsSplit '\n' output
  parseEmbeddingsLines pf lines

/-! ## A concrete number parser for evaluating the model

`strconv.ParseFloat` itself is Go library code.  To evaluate the model on concrete
text, `parseDecimal` models it on plain signed decimals (`12`, `-0.5`, `+3.25`): the
value is the exact rational the token denotes (rounding to binary32 is not
modelled), and every other token is rejected. -/

/-- The value of a decimal digit. -/
def digitVal (c : Char) : Option Nat :=
  if '0' ≤ c ∧ c ≤ '9' then some (c.toNat - '0'.toNat) else none

/-- The number a string of decimal digits denotes, continuing from `acc`; `none` when a
character is not a digit. -/
def digitsVal : Nat → GoString → Option Nat
  | acc, [] => some acc
  | acc, c :: cs =>
    match digitVal c with
    | none => none
    | some d => digitsVal (10 * acc + d) cs

/-- An unsigned decimal `ddd` or `ddd.ddd` with at least one digit, as the pair of its
digits read as one number and the count of digits after the point. -/
def parseUnsigned (s : GoString) : Option (Nat × Nat) :=
  let ip := s.takeWhile (fun c => c != '.')
  let rest := s.dropWhile (fun c => c != '.')
  let fp := rest.drop 1
  if ip.isEmpty && fp.isEmpty then none
  else
    match digitsVal 0 (ip ++ fp) with
    | some m => some (m, fp.length)
    | none => none

/-- Plain signed decimals, as `strconv.ParseFloat` reads them. -/
def parseDecimal (s : GoString) : Option ℚ :=
  match s with
  | '-' :: t => (parseUnsigned t).map (fun p => mkRat (-(p.1 : Int)) (10 ^ p.2))
  | '+' :: t => (parseUnsigned t).map (fun p => mkRat (p.1 : Int) (10 ^ p.2))
  | _ => (parseUnsigned s).map (fun p => mkRat (p.1 : Int) (10 ^ p.2))

/-! ## `GenerateEmbeddings` -/

/-- A command as built by `exec.Command(name, args...)`. -/
structure Command where
  path : GoString
  args : List GoString
deriving DecidableEq

/-- What `cmd.Run()` leaves behind: its error (`none` when the child ran and exited with
status zero) and the text captured from the child's two output streams. -/
structure RunResult where
  err : Option GoString
  stdout : GoString
  stderr : GoString
deriving DecidableEq

/-- The operating system as `GenerateEmbeddings` sees it: `statNotExist path` is
`os.IsNotExist(err)` for the `err` of `os.Stat(path)`, and `run cmd` is the outcome of
running `cmd` to completion. -/
structure OS where
  statNotExist : GoString → Bool
  run : Command → RunResult

/-- The result of `GenerateEmbeddings` together with the commands it ran, in order. -/
structure Generated (F : Type) where
  result : Except GoString (List F)
  executed : List Command

/-- The argument list `GenerateEmbeddings` builds. -/
def embeddingArgs (modelPath prompt : GoString) (threads gpuLayers : Int) : List GoString :=
  let args := [str "-m", modelPath, str "-p", prompt]
  let args := if threads > 0 then args ++ [str "-t", strconvItoa threads] else args
  let args := if gpuLayers > 0 then args ++ [str "-ngl", strconvItoa gpuLayers] else args
  args

/-- The path of the embedding binary `GenerateEmbeddings` settles on. -/
def embeddingBinary (os : OS) : GoString :=
  let embeddingBinary := str "../build/bin/embedding"
  if os.statNotExist embeddingBinary then
    let embeddingBinary := str "./build/bin/embedding"
    if os.statNotExist embeddingBinary then
      str "build/bin/embedding"
    else embeddingBinary
  else embeddingBinary

/-- Go `GenerateEmbeddings(modelPath, prompt, threads, gpuLayers)`. -/
def GenerateEmbeddings {F : Type} (pf : GoString → Option F) (os : OS)
    (modelPath prompt : GoString) (threads gpuLayers : Int) : Generated F :=
  let args := embeddingArgs modelPath prompt threads gpuLayers
  let cmd : Command := { path := embeddingBinary os, args := args }
  let ran := os.run cmd
  match ran.err with
  | some err =>
    { result := Except.error
        (str "failed to run embedding binary: " ++ err ++ str "\nStderr: " ++ ran.stderr),
      executed := [cmd] }
  | none =>
    match parseEmbeddingsOutput pf ran.stdout with
    | Except.ok embeddings => { result := Except.ok embeddings, executed := [cmd] }
    | Except.error _ =>
      match parseEmbeddingsOutput pf ran.stderr with
      | Except.ok embeddings => { result := Except.ok embeddings, executed := [cmd] }
      | Except.error err =>
        { result := Except.error (str "failed to parse embeddings output: " ++ err),
          executed := [cmd] }

/-! ## Reading the input text -/

/-- Standard input: its content, and the error the stream reports once the content is
used up (`none` for a plain end of stream, `io.EOF`). -/
structure Stdin where
  data : GoString
  failure : Option GoString

/-- The error of a read. -/
inductive ReadErr where
  | eof
  | other (msg : GoString)
deriving DecidableEq

/-- What one `reader.ReadString(delim)` returns, and the input left unread. -/
structure ReadResult where
  line : GoString
  err : Option ReadErr
  rest : GoString
deriving DecidableEq

/-- Go `bufio.Reader.ReadString(delim)` on the unread input: the data up to and
including the first delimiter; when the input ends before a delimiter, the data read
so far together with the error. -/
def ReadString (failure : Option GoString) (delim : Char) : GoString → ReadResult
  | [] =>
    { line := [],
      err := some (match failure with
        | none => ReadErr.eof
        | some msg => ReadErr.other msg),
      rest := [] }
  | c :: cs =>
    if c = delim then { line := [c], err := none, rest := cs }
    else
      let r := ReadString failure delim cs
      { line := c :: r.line, err := r.err, rest := r.rest }

/-- The read loop of `main` (`for { line, err := reader.ReadString('\n') ... }`) on the
unread input, with the lines collected so far: `Except.ok lines` when it leaves through
`break`, `Except.error msg` when it leaves through the read error branch. -/
def readLoop (failure : Option GoString) (input : GoString) (lines : List GoString) :
    Except GoString (List GoString) :=
  match hread : (ReadString failure '\n' input).err with
  | some ReadErr.eof => Except.ok lines
  | some (ReadErr.other msg) => Except.error msg
  | none =>
    readLoop failure (ReadString failure '\n' input).rest
      (lines ++ [(ReadString failure '\n' input).line])
termination_by input.length
decreasing_by
  have shorter : ∀ inp : GoString, (ReadString failure '\n' inp).err = none →
      (ReadString failure '\n' inp).rest.length < inp.length := by
    intro inp
    induction inp with
    | nil => intro h0; simp [ReadString] at h0
    | cons c cs ih =>
      intro h0
      by_cases hc : c = '\n'
      · simp [ReadString, hc]
      · simp only [ReadString, hc, if_false] at h0 ⊢
        exact Nat.lt_succ_of_lt (ih h0)
  exact shorter input hread

/-- What the "Get input text" block of `main` leaves behind: the lines it wrote to
standard error and the input text, `none` when the block ended in `os.Exit(1)`. -/
structure Resolved where
  stderr : GoString
  inputText : Option GoString
deriving DecidableEq

/-- The "Get input text" block, the same in both programs. -/
def resolveInput (prompt : GoString) (stdin : Stdin) : Resolved :=
  if prompt ≠ [] then
    { stderr := [], inputText := some prompt }
  else
    let msg := str "Reading from stdin (press Ctrl+D when done)...\n"
    match readLoop stdin.failure stdin.data [] with
    | Except.error err =>
      { stderr := msg ++ str "Error reading input: " ++ err ++ str "\n", inputText := none }
    | Except.ok lines =>
      let inputText := stringsJoin lines
      let inputText := stringsTrimSpace inputText
      { stderr := msg, inputText := some inputText }

/-! ## Output -/

/-- Go `EmbeddingResult`. -/
structure EmbeddingResult (F : Type) where
  Embeddings : List F
  Dimensions : Int

/-- The writes of the text loop (`for i, val := range embeddings`): the separator
before every value but the first, then the value formatted by `fmt.Printf("%.6f", val)`,
here `fmtF`. -/
def printLoop {F : Type} (fmtF : F → GoString) : Nat → List F → List GoString
  | _, [] => []
  | i, val :: rest =>
    (if i > 0 then [str ", "] else []) ++ [fmtF val] ++ printLoop fmtF (i + 1) rest

/-- The text the loop writes to standard output. -/
def printEmbeddings {F : Type} (fmtF : F → GoString) (embeddings : List F) : GoString :=
  (printLoop fmtF 0 embeddings).flatten

/-- What a run of a program leaves behind: exit status, the text on the two output
streams, the texts handed to the inference client (`GenerateEmbeddings` or
`l.Embeddings`) and the commands run, both in order. -/
structure Outcome where
  exitCode : Nat
  stdout : GoString
  stderr : GoString
  clientTexts : List GoString
  executed : List Command
deriving DecidableEq

/-- The struct `main` of the wrapper builds for JSON output. -/
def jsonResult {F : Type} (embeddings : List F) : EmbeddingResult F :=
  { Embeddings := embeddings, Dimensions := embeddings.length }

/-- The "Output embeddings" block of the wrapper: exit status, standard output and
standard error.  `marshal` is `json.MarshalIndent(_, "", "  ")`. -/
def outputEmbeddings {F : Type} (fmtF : F → GoString)
    (marshal : EmbeddingResult F → Except GoString GoString)
    (outputFormat : GoString) (embeddings : List F) : Nat × GoString × GoString :=
  let msg := str "Embeddings generated successfully (" ++ strconvItoa embeddings.length ++
    str " dimensions)\n"
  if outputFormat = str "json" then
    let result := jsonResult embeddings
    match marshal result with
    | Except.error err => (1, [], msg ++ str "Error encoding JSON: " ++ err ++ str "\n")
    | Except.ok jsonData => (0, jsonData ++ str "\n", msg)
  else
    (0, str "Embeddings:\n" ++ printEmbeddings fmtF embeddings ++ str "\n", msg)

/-! ## The two programs -/

namespace EmbeddingsWrapper

/-- The lines written when the model path is missing. -/
def usage : GoString :=
  str "Error: Model path is required\n" ++
  str "Usage: embeddings_wrapper -m <model_path> [-p <prompt>] [-t <threads>] [-ngl <gpu_layers>] [-format text|json]\n" ++
  str "\n" ++
  str "Example:\n" ++
  str "  embeddings_wrapper -m /www/Remembrances/nomic-embed-text-v1.5.Q4_K_M.gguf -p \"Hello world\"\n" ++
  str "  echo \"Hello world\" | embeddings_wrapper -m /www/Remembrances/nomic-embed-text-v1.5.Q4_K_M.gguf\n"

/-- Go `main` of `embeddings_wrapper.go`, after `flag.Parse()`: the arguments are the
values of the flag variables. -/
def main {F : Type} (pf : GoString → Option F) (fmtF : F → GoString)
    (marshal : EmbeddingResult F → Except GoString GoString) (os : OS)
    (modelPath prompt : GoString) (threads gpuLayers : Int) (outputFormat : GoString)
    (stdin : Stdin) : Outcome :=
  if modelPath = [] then
    { exitCode := 1, stdout := [], stderr := usage, clientTexts := [], executed := [] }
  else
    let r := resolveInput prompt stdin
    match r.inputText with
    | none =>
      { exitCode := 1, stdout := [], stderr := r.stderr, clientTexts := [], executed := [] }
    | some inputText =>
      if inputText = [] then
        { exitCode := 1, stdout := [],
          stderr := r.stderr ++ str "Error: No input text provided\n",
          clientTexts := [], executed := [] }
      else
        let log := r.stderr ++ str "Generating embeddings for: " ++ inputText ++ str "\n"
        let g := GenerateEmbeddings pf os modelPath inputText threads gpuLayers
        match g.result with
        | Except.error err =>
          { exitCode := 1, stdout := [],
            stderr := log ++ str "Error generating embeddings: " ++ err ++ str "\n",
            clientTexts := [inputText], executed := g.executed }
        | Except.ok embeddings =>
          let out := outputEmbeddings fmtF marshal outputFormat embeddings
          { exitCode := out.1, stdout := out.2.1, stderr := log ++ out.2.2,
            clientTexts := [inputText], executed := g.executed }

end EmbeddingsWrapper

namespace Embeddings

/-- The in-process binding as `embeddings.go` uses it: `new modelPath gpuLayers` is the
error of `llama.New(modelPath, llama.EnableF16Memory, llama.SetContext(2048),
llama.EnableEmbeddings, llama.SetGPULayers(gpuLayers))` (`none` when the model is
loaded), `embeddings text threads` is `l.Embeddings(text, llama.SetThreads(threads))`. -/
structure Llama (F : Type) where
  new : GoString → Int → Option GoString
  embeddings : GoString → Int → Except GoString (List F)

/-- The lines written when the model path is missing. -/
def usage : GoString :=
  str "Error: Model path is required\n" ++
  str "Usage: embeddings -m <model_path> [-p <prompt>] [-t <threads>] [-ngl <gpu_layers>]\n" ++
  str "\n" ++
  str "Example:\n" ++
  str "  embeddings -m /www/Remembrances/nomic-embed-text-v1.5.Q4_K_M.gguf -p \"Hello world\"\n" ++
  str "  echo \"Hello world\" | embeddings -m /www/Remembrances/nomic-embed-text-v1.5.Q4_K_M.gguf\n"

/-- Go `main` of `embeddings.go`, after `flag.Parse()`. -/
def main {F : Type} (fmtF : F → GoString) (llama : Llama F)
    (modelPath prompt : GoString) (threads gpuLayers : Int) (stdin : Stdin) : Outcome :=
  if modelPath = [] then
    { exitCode := 1, stdout := [], stderr := usage, clientTexts := [], executed := [] }
  else
    let log := str "Loading model from: " ++ modelPath ++ str "\n"
    match llama.new modelPath gpuLayers with
    | some err =>
      { exitCode := 1, stdout := [],
        stderr := log ++ str "Error loading model: " ++ err ++ str "\n",
        clientTexts := [], executed := [] }
    | none =>
      let log := log ++ str "Model loaded successfully\n"
      let r := resolveInput prompt stdin
      match r.inputText with
      | none =>
        { exitCode := 1, stdout := [], stderr := log ++ r.stderr,
          clientTexts := [], executed := [] }
      | some inputText =>
        if inputText = [] then
          { exitCode := 1, stdout := [],
            stderr := log ++ r.stderr ++ str "Error: No input text provided\n",
            clientTexts := [], executed := [] }
        else
          let log := log ++ r.stderr ++ str "Generating embeddings for: " ++ inputText ++
            str "\n"
          match llama.embeddings inputText threads with
          | Except.error err =>
            { exitCode := 1, stdout := [],
              stderr := log ++ str "Error generating embeddings: " ++ err ++ str "\n",
              clientTexts := [inputText], executed := [] }
          | Except.ok embeddings =>
            { exitCode := 0,
              stdout := str "Embeddings:\n" ++ printEmbeddings fmtF embeddings ++ str "\n",
              stderr := log ++ str "Embeddings generated successfully (" ++
                strconvItoa embeddings.length ++ str " dimensions)\n",
              clientTexts := [inputText], executed := [] }

end Embeddings

/-! ## Concrete number formatting and environments for evaluating the model -/

/-- Digits padded with zeros on the left to a width. -/
def padZeros (width : Nat) (s : GoString) : GoString :=
  List.replicate (width - s.length) '0' ++ s

/-- The digits of `num / den` in fixed-point form with six digits after the point: the
quotient is rounded to the nearest multiple of `10 ^ (-6)`, a tie to the even one, as
Go `strconv` does; the whole part in decimal, a point, the six fractional digits. -/
def fixed6 (num den : Nat) : GoString :=
  let n := num * 10 ^ 6
  let quo := n / den
  let rem := n % den
  let scaled := if 2 * rem > den ∨ (2 * rem = den ∧ quo % 2 = 1) then quo + 1 else quo
  (Nat.repr (scaled / 10 ^ 6)).toList ++ ['.'] ++
    padZeros 6 (Nat.repr (scaled % 10 ^ 6)).toList

/-- Go `fmt.Sprintf("%.6f", q)` on an exact value: six digits after the point, the last
one rounded to nearest, ties to even. -/
def formatFixed6 (q : ℚ) : GoString :=
  (if q.num < 0 then ['-'] else []) ++ fixed6 q.num.natAbs q.den

/-- A Go `float32` value: a finite value, given by its sign and its magnitude (an exact
rational; the sign is kept apart so that negative zero is a value), an infinity, or a
NaN.  Every binary32 value is one of these. -/
inductive GoFloat32 where
  | finite (negative : Bool) (magnitude : ℚ)
  | inf (negative : Bool)
  | nan
deriving DecidableEq

/-- Go `fmt.Sprintf("%.6f", v)` for a `float32`: a finite value in fixed-point form with
a minus sign when its sign bit is set, an infinity as `+Inf` or `-Inf`, a NaN as
`NaN`. -/
def sprintf6 : GoFloat32 → GoString
  | GoFloat32.finite negative magnitude =>
    (if negative then ['-'] else []) ++ fixed6 magnitude.num.natAbs magnitude.den
  | GoFloat32.inf negative => if negative then str "-Inf" else str "+Inf"
  | GoFloat32.nan => str "NaN"

/-- A fixed-point decimal with six fractional digits: an optional minus sign, one or
more digits, a point, and exactly six digits. -/
def isFixed6 (s : GoString) : Bool :=
  let t := if s.head? = some '-' then s.drop 1 else s
  let whole := t.take (t.length - 7)
  let fraction := t.drop (t.length - 6)
  !whole.isEmpty && whole.all Char.isDigit &&
    ((t.drop (t.length - 7)).head? == some '.') &&
    fraction.length == 6 && fraction.all Char.isDigit

/-- Go `strconv.ParseFloat(s, 32)` on the names of the special values and on plain signed
decimals: `nan` in any case is a NaN, `inf` and `infinity` in any case with an optional
sign are the infinities, and a decimal is the finite value it denotes (as
`parseDecimal`, rounding to binary32 is not modelled); every other token is
rejected. -/
def parseFloat32 (s : GoString) : Option GoFloat32 :=
  if s.map Char.toLower = str "nan" then some GoFloat32.nan
  else
    let negative := s.head? == some '-'
    let body := if s.head? = some '-' ∨ s.head? = some '+' then s.drop 1 else s
    if body.map Char.toLower = str "inf" ∨ body.map Char.toLower = str "infinity" then
      some (GoFloat32.inf negative)
    else
      (parseUnsigned body).map (fun p => GoFloat32.finite negative (mkRat (p.1 : Int) (10 ^ p.2)))

/-- A directory without any embedding binary: every `os.Stat` reports that the file
does not exist and running a command fails to start. -/
def osWithoutBinary : OS where
  statNotExist := fun _ => true
  run := fun cmd =>
    { err := some (str "fork/exec " ++ cmd.path ++ str ": no such file or directory"),
      stdout := [], stderr := [] }

/-- An environment whose embedding binary is at `./build/bin/embedding` and writes
the given text to its two streams before it ends with the given error, if any. -/
def osWithBinary (err : Option GoString) (stdout stderr : GoString) : OS where
  statNotExist := fun path => path != str "./build/bin/embedding"
  run := fun cmd =>
    if cmd.path = str "./build/bin/embedding" then
      { err := err, stdout := stdout, stderr := stderr }
    else
      { err := some (str "fork/exec " ++ cmd.path ++ str ": no such file or directory"),
        stdout := [], stderr := [] }

/-- The JSON number of a whole number that binary32 holds exactly. -/
def jsonWhole (q : ℚ) : Option GoString :=
  if q.den = 1 ∧ q.num.natAbs ≤ 2 ^ 24 then some (strconvItoa q.num) else none

/-- Go `json.MarshalIndent(result, "", "  ")` on vectors of whole numbers of absolute
value up to `2 ^ 24`; a stand-in for evaluating the model that is not defined on other
vectors and answers them with an error. -/
def marshalIndentWhole (result : EmbeddingResult ℚ) : Except GoString GoString :=
  if result.Embeddings.all (fun q => (jsonWhole q).isSome) then
    let numbers := result.Embeddings.filterMap jsonWhole
    let array :=
      if numbers.isEmpty then str "[]"
      else str "[\n    " ++ (str ",\n    ").intercalate numbers ++ str "\n  ]"
    Except.ok (str "\x7b\n  \"embeddings\": " ++ array ++ str ",\n  \"dimensions\": " ++
      strconvItoa result.Dimensions ++ str "\n\x7d")
  else Except.error (str "json: unsupported value")

/-- Go `json.MarshalIndent(result, "", "  ")` for a vector of `float32`: a NaN or an
infinity is an unsupported value; a vector of finite values is encoded as
`marshalIndentWhole` encodes its magnitudes with their signs. -/
def marshalIndent32 (result : EmbeddingResult GoFloat32) : Except GoString GoString :=
  match result.Embeddings.find? (fun v =>
    match v with
    | GoFloat32.finite _ _ => false
    | _ => true) with
  | some v => Except.error (str "json: unsupported value: " ++ sprintf6 v)
  | none =>
    marshalIndentWhole
      { Embeddings := result.Embeddings.filterMap (fun v =>
          match v with
          | GoFloat32.finite negative magnitude =>
            some (mkRat (if negative then -magnitude.num else magnitude.num) magnitude.den)
          | _ => none),
        Dimensions := result.Dimensions }

/-! ## Lemmas on the string functions -/

theorem parseParts_foldl {F : Type} (pf : GoString → Option F) (parts : List GoString)
    (acc : List F) :
    parts.foldl
      (fun embeddings part =>
        match pf part with
        | none => embeddings
        | some val => embeddings ++ [val])
      acc = acc ++ parts.filterMap pf := by
  induction parts generalizing acc with
  | nil => simp
  | cons part rest ih =>
    simp only [List.foldl_cons, List.filterMap_cons]
    cases hp : pf part with
    | none => simpa using ih acc
    | some val => simpa using ih (acc ++ [val])

/-- The inner loop keeps exactly the parts that convert, in order. -/
theorem parseParts_eq_filterMap {F : Type} (pf : GoString → Option F)
    (parts : List GoString) : parseParts pf parts = parts.filterMap pf := by
  simpa [parseParts] using parseParts_foldl pf parts []

theorem fieldsAux_dropWhile (s : GoString) :
    fieldsAux [] (s.dropWhile isSpace) = fieldsAux [] s := by
  induction s with
  | nil => rfl
  | cons c cs ih =>
    by_cases hc : isSpace c = true
    · simp [List.dropWhile, fieldsAux, hc, ih]
    · simp [List.dropWhile, hc]

theorem fieldsAux_spaces (cur t : GoString) (ht : ∀ c ∈ t, isSpace c = true) :
    fieldsAux cur t = if cur.isEmpty then [] else [cur.reverse] := by
  induction t generalizing cur with
  | nil => simp [fieldsAux]
  | cons c cs ih =>
    have hc : isSpace c = true := ht c (List.mem_cons_self _ _)
    have hcs : ∀ d ∈ cs, isSpace d = true := fun d hd => ht d (List.mem_cons_of_mem _ hd)
    simp only [fieldsAux, hc, if_true]
    rw [ih [] hcs]
    simp

theorem fieldsAux_append_spaces (cur s t : GoString) (ht : ∀ c ∈ t, isSpace c = true) :
    fieldsAux cur (s ++ t) = fieldsAux cur s := by
  induction s generalizing cur with
  | nil =>
    rw [List.nil_append, fieldsAux_spaces cur t ht]
    simp [fieldsAux]
  | cons c cs ih =>
    have h1 := ih []
    have h2 := ih (c :: cur)
    rw [List.cons_append]
    simp only [fieldsAux, h1, h2]

theorem rdrop_append_spaces (s : GoString) :
    ∃ t : GoString, (∀ c ∈ t, isSpace c = true) ∧
      s = ((s.reverse.dropWhile isSpace).reverse) ++ t := by
  refine ⟨(s.reverse.takeWhile isSpace).reverse, ?_, ?_⟩
  · intro c hc
    exact List.mem_takeWhile_imp (List.mem_reverse.mp hc)
  · have h := List.takeWhile_append_dropWhile isSpace s.reverse
    have h2 := congrArg List.reverse h
    rw [List.reverse_append, List.reverse_reverse] at h2
    exact h2.symm

/-- Trimming a string does not change its fields. -/
theorem stringsFields_trimSpace (s : GoString) :
    stringsFields (stringsTrimSpace s) = stringsFields s := by
  obtain ⟨t, ht, hs⟩ := rdrop_append_spaces (s.dropWhile isSpace)
  unfold stringsFields stringsTrimSpace
  rw [← fieldsAux_dropWhile s]
  conv_rhs => rw [hs]
  rw [fieldsAux_append_spaces _ _ _ ht]

/-- On a line that starts with the marker, the values read are the fields after the
marker that convert, in order. -/
theorem parseMarkerLine_eq {F : Type} (pf : GoString → Option F) (line : GoString)
    (h : stringsHasPrefix line marker = true) :
    parseMarkerLine pf line = (stringsFields (line.drop marker.length)).filterMap pf := by
  simp [parseMarkerLine, stringsTrimPrefix, h, stringsFields_trimSpace,
    parseParts_eq_filterMap]

/-- The outer loop returns the values of the first marker line that yields a value. -/
theorem parseEmbeddingsLines_eq {F : Type} (pf : GoString → Option F)
    (lines : List GoString) :
    parseEmbeddingsLines pf lines =
      match lines.find?
        (fun l => stringsHasPrefix l marker && !(parseMarkerLine pf l).isEmpty) with
      | some l => Except.ok (parseMarkerLine pf l)
      | none => Except.error noEmbeddingsMsg := by
  induction lines with
  | nil => rfl
  | cons line rest ih =>
    by_cases hp : stringsHasPrefix line marker = true
    · cases hv : parseMarkerLine pf line with
      | nil => simp [parseEmbeddingsLines, hp, hv, ih, List.find?]
      | cons v vs => simp [parseEmbeddingsLines, hp, hv, List.find?]
    · simp [parseEmbeddingsLines, hp, ih, List.find?]

/-! ## `parseEmbeddingsOutput`: the claims -/

/-- C1: when the first line of the text that begins with the marker `embedding 0:` has a
token that converts, `parseEmbeddingsOutput` succeeds and returns the converted values
of that line's white-space separated tokens after the marker, in their order, the
tokens that do not convert dropped. -/
theorem parseEmbeddingsOutput_first_marker_line {F : Type} (pf : GoString → Option F)
    (output line : GoString)
    (hfirst : (stringsSplit '\n' output).find? (fun l => stringsHasPrefix l marker) =
      some line)
    (hparse : ∃ tok ∈ stringsFields (line.drop marker.length), (pf tok).isSome = true) :
    parseEmbeddingsOutput pf output =
      Except.ok ((stringsFields (line.drop marker.length)).filterMap pf) := by
  unfold parseEmbeddingsOutput
  simp only
  generalize stringsSplit '\n' output = lines at hfirst
  induction lines with
  | nil => simp at hfirst
  | cons l rest ih =>
    by_cases hp : stringsHasPrefix l marker = true
    · have hl : l = line := by simpa [List.find?, hp] using hfirst
      subst hl
      have hne : 0 < (parseMarkerLine pf l).length := by
        rw [parseMarkerLine_eq pf l hp]
        obtain ⟨tok, hmem, hsome⟩ := hparse
        obtain ⟨v, hv⟩ := Option.isSome_iff_exists.mp hsome
        exact List.length_pos_of_mem (List.mem_filterMap.mpr ⟨tok, hmem, hv⟩)
      simp only [parseEmbeddingsLines, hp, if_true]
      rw [if_pos (by simpa using hne), parseMarkerLine_eq pf l hp]
    · have hrest : rest.find? (fun l => stringsHasPrefix l marker) = some line := by
        simpa [List.find?, hp] using hfirst
      simp only [parseEmbeddingsLines, hp]
      exact ih hrest

/-- C1, evaluated: the line of the specification, alone and between other lines. -/
theorem parseEmbeddingsOutput_first_marker_line_witness :
    parseEmbeddingsOutput parseDecimal (str "embedding 0: 0.1 0.2 abc 0.3") =
        Except.ok [mkRat 1 10, mkRat 2 10, mkRat 3 10] ∧
      parseEmbeddingsOutput parseDecimal
          (str "llama: ok\n embedding 0: 9\nembedding 0:\t-1.5 x 2 \r\nembedding 0: 7") =
        Except.ok [mkRat (-3) 2, mkRat 2 1] :=
  ⟨(parseEmbeddingsOutput_first_marker_line parseDecimal
      (str "embedding 0: 0.1 0.2 abc 0.3") (str "embedding 0: 0.1 0.2 abc 0.3")
      (by decide) (by decide)).trans (by decide),
   (parseEmbeddingsOutput_first_marker_line parseDecimal
      (str "llama: ok\n embedding 0: 9\nembedding 0:\t-1.5 x 2 \r\nembedding 0: 7")
      (str "embedding 0:\t-1.5 x 2 \r") (by decide) (by decide)).trans (by decide)⟩

/-- C2: on a text none of whose lines begins with the marker `embedding 0:`,
`parseEmbeddingsOutput` fails with the error `no embeddings found in output`. -/
theorem parseEmbeddingsOutput_no_marker {F : Type} (pf : GoString → Option F)
    (output : GoString)
    (hnone : ∀ l ∈ stringsSplit '\n' output, stringsHasPrefix l marker = false) :
    parseEmbeddingsOutput pf output = Except.error (str "no embeddings found in output") := by
  unfold parseEmbeddingsOutput
  simp only
  generalize stringsSplit '\n' output = lines at hnone
  induction lines with
  | nil => rfl
  | cons l rest ih =>
    have hl : stringsHasPrefix l marker = false := hnone l (List.mem_cons_self _ _)
    simp only [parseEmbeddingsLines, hl]
    exact ih (fun x hx => hnone x (List.mem_cons_of_mem _ hx))

/-- C2, evaluated: a text without the marker, the empty text, and texts where the
marker only comes after other characters of a line. -/
theorem parseEmbeddingsOutput_no_marker_witness :
    parseEmbeddingsOutput parseDecimal (str "no marker here") =
        Except.error (str "no embeddings found in output") ∧
      parseEmbeddingsOutput parseDecimal (str "") =
        Except.error (str "no embeddings found in output") ∧
      parseEmbeddingsOutput parseDecimal (str "a\n embedding 0: 1.0\nlog: embedding 0: 2") =
        Except.error (str "no embeddings found in output") :=
  ⟨parseEmbeddingsOutput_no_marker parseDecimal (str "no marker here") (by decide),
   parseEmbeddingsOutput_no_marker parseDecimal (str "") (by decide),
   parseEmbeddingsOutput_no_marker parseDecimal
     (str "a\n embedding 0: 1.0\nlog: embedding 0: 2") (by decide)⟩

/-- C3, as stated, fails: the first marker line of this text yields no value, and
`parseEmbeddingsOutput` goes on to the second marker line and succeeds. -/
theorem parseEmbeddingsOutput_later_line_counterexample :
    (stringsSplit '\n' (str "embedding 0: abc\nembedding 0: 1.0")).find?
        (fun l => stringsHasPrefix l marker) = some (str "embedding 0: abc") ∧
      parseMarkerLine parseDecimal (str "embedding 0: abc") = [] ∧
      parseEmbeddingsOutput parseDecimal (str "embedding 0: abc\nembedding 0: 1.0") =
        Except.ok [mkRat 1 1] := by
  decide

/-- C3, amended: `parseEmbeddingsOutput` decides on the first line that begins with the
marker and yields at least one value: it returns the values of that line, skipping
marker lines that yield none, and fails with `no embeddings found in output` exactly
when no marker line yields a value. -/
theorem parseEmbeddingsOutput_first_yielding_line {F : Type} (pf : GoString → Option F)
    (output : GoString) :
    parseEmbeddingsOutput pf output =
      match (stringsSplit '\n' output).find?
        (fun l => stringsHasPrefix l marker &&
          !((stringsFields (l.drop marker.length)).filterMap pf).isEmpty) with
      | some l => Except.ok ((stringsFields (l.drop marker.length)).filterMap pf)
      | none => Except.error (str "no embeddings found in output") := by
  unfold parseEmbeddingsOutput
  simp only
  rw [parseEmbeddingsLines_eq]
  have hfun : (fun l => stringsHasPrefix l marker && !(parseMarkerLine pf l).isEmpty) =
      (fun l => stringsHasPrefix l marker &&
        !((stringsFields (l.drop marker.length)).filterMap pf).isEmpty) := by
    funext l
    by_cases hp : stringsHasPrefix l marker = true
    · rw [parseMarkerLine_eq pf l hp]
    · simp [hp]
  rw [hfun]
  cases hfind : (stringsSplit '\n' output).find?
      (fun l => stringsHasPrefix l marker &&
        !((stringsFields (l.drop marker.length)).filterMap pf).isEmpty) with
  | none => rfl
  | some l =>
    have hl := List.find?_some hfind
    have hp : stringsHasPrefix l marker = true := by
      simp only [Bool.and_eq_true] at hl
      exact hl.1
    simp only [parseMarkerLine_eq pf l hp]

/-! ## Reading standard input -/

theorem stringsSplit_ne_nil (sep : Char) (s : GoString) : stringsSplit sep s ≠ [] := by
  induction s with
  | nil => simp [stringsSplit]
  | cons c cs ih =>
    by_cases hc : c = sep
    · simp [stringsSplit, hc]
    · cases hs : stringsSplit sep cs with
      | nil => exact absurd hs ih
      | cons l ls => simp [stringsSplit, hc, hs]

/-- A read either ends at the first newline, which splits off the first line, or
reaches the end of an input without newline and reports the error of the stream. -/
theorem ReadString_split (failure : Option GoString) (input : GoString) :
    ((ReadString failure '\n' input).err = none ∧
        ∃ pre, (ReadString failure '\n' input).line = pre ++ ['\n'] ∧
          stringsSplit '\n' input = pre :: stringsSplit '\n' (ReadString failure '\n' input).rest) ∨
      ((ReadString failure '\n' input).err =
          some (match failure with
            | none => ReadErr.eof
            | some msg => ReadErr.other msg) ∧
        stringsSplit '\n' input = [input]) := by
  induction input with
  | nil => right; simp [ReadString, stringsSplit]
  | cons c cs ih =>
    by_cases hc : c = '\n'
    · left
      simp [ReadString, stringsSplit, hc]
    · rcases ih with ⟨he, pre, hline, hsplit⟩ | ⟨he, hsplit⟩
      · left
        refine ⟨by simp [ReadString, hc, he], c :: pre, ?_, ?_⟩
        · simp [ReadString, hc, hline]
        · simp [ReadString, stringsSplit, hc, hsplit]
      · right
        refine ⟨by simp [ReadString, hc, he], ?_⟩
        simp [stringsSplit, hc, hsplit]

/-- A read that finds its delimiter leaves less input than it was given. -/
theorem ReadString_rest_lt (failure : Option GoString) (input : GoString)
    (h : (ReadString failure '\n' input).err = none) :
    (ReadString failure '\n' input).rest.length < input.length := by
  induction input with
  | nil => simp [ReadString] at h
  | cons c cs ih =>
    by_cases hc : c = '\n'
    · simp [ReadString, hc]
    · simp only [ReadString, hc, if_false] at h ⊢
      exact Nat.lt_succ_of_lt (ih h)

theorem readLoop_eof_aux (n : Nat) :
    ∀ (input : GoString) (lines : List GoString), input.length ≤ n →
      readLoop none input lines =
        Except.ok (lines ++ (stringsSplit '\n' input).dropLast.map (fun l => l ++ ['\n'])) := by
  induction n with
  | zero =>
    intro input lines hlen
    have hnil : input = [] := List.length_eq_zero.mp (Nat.le_zero.mp hlen)
    subst hnil
    rw [readLoop]
    split
    · simp [stringsSplit]
    · rename_i h; simp [ReadString] at h
    · rename_i h; simp [ReadString] at h
  | succ n ih =>
    intro input lines hlen
    rw [readLoop]
    rcases ReadString_split none input with ⟨he, pre, hline, hsplit⟩ | ⟨he, hsplit⟩
    · split
      · rename_i h; rw [he] at h; cases h
      · rename_i h; rw [he] at h; cases h
      · have hlt := ReadString_rest_lt none input he
        rw [ih _ _ (by omega), hline, hsplit]
        have hne := stringsSplit_ne_nil '\n' (ReadString none '\n' input).rest
        rw [List.dropLast_cons_of_ne_nil hne]
        simp
    · split
      · simp [hsplit]
      · rename_i h; rw [he] at h; cases h
      · rename_i h; rw [he] at h; cases h

/-- The read loop on a stream that ends plainly collects the lines that end in a
newline and nothing else: what follows the last newline is not collected. -/
theorem readLoop_eof (input : GoString) (lines : List GoString) :
    readLoop none input lines =
      Except.ok (lines ++ (stringsSplit '\n' input).dropLast.map (fun l => l ++ ['\n'])) :=
  readLoop_eof_aux input.length input lines (Nat.le_refl _)

theorem readLoop_failure_aux (msg : GoString) (n : Nat) :
    ∀ (input : GoString) (lines : List GoString), input.length ≤ n →
      readLoop (some msg) input lines = Except.error msg := by
  induction n with
  | zero =>
    intro input lines hlen
    have hnil : input = [] := List.length_eq_zero.mp (Nat.le_zero.mp hlen)
    subst hnil
    rw [readLoop]
    split
    · rename_i h; simp [ReadString] at h
    · rename_i m h
      simp [ReadString] at h
      rw [h]
    · rename_i h; simp [ReadString] at h
  | succ n ih =>
    intro input lines hlen
    rw [readLoop]
    rcases ReadString_split (some msg) input with ⟨he, _⟩ | ⟨he, _⟩
    · split
      · rename_i h; rw [he] at h; cases h
      · rename_i h; rw [he] at h; cases h
      · have hlt := ReadString_rest_lt (some msg) input he
        exact ih _ _ (by omega)
    · split
      · rename_i h; rw [he] at h; cases h
      · rename_i m h
        rw [he] at h
        simp only [Option.some.injEq, ReadErr.other.injEq] at h
        rw [h]
      · rename_i h; rw [he] at h; cases h

/-- The read loop on a stream that fails leaves through the read error branch. -/
theorem readLoop_failure (msg input : GoString) (lines : List GoString) :
    readLoop (some msg) input lines = Except.error msg :=
  readLoop_failure_aux msg input.length input lines (Nat.le_refl _)

theorem stringsJoin_foldl (elems : List GoString) (acc : GoString) :
    elems.foldl (fun acc e => acc ++ e) acc = acc ++ elems.flatten := by
  induction elems generalizing acc with
  | nil => simp
  | cons e es ih => simp [List.foldl_cons, ih, List.append_assoc]

theorem stringsJoin_eq_flatten (elems : List GoString) :
    stringsJoin elems = elems.flatten := by
  simpa [stringsJoin] using stringsJoin_foldl elems []

/-- The lines that end in a newline, joined, followed by what comes after the last
newline, are the whole text. -/
theorem stringsJoin_lines_append_last (data : GoString) :
    stringsJoin ((stringsSplit '\n' data).dropLast.map (fun l => l ++ ['\n'])) ++
      (stringsSplit '\n' data).getLast (stringsSplit_ne_nil '\n' data) = data := by
  induction data with
  | nil => simp [stringsSplit, stringsJoin]
  | cons c cs ih =>
    have hne := stringsSplit_ne_nil '\n' cs
    rw [stringsJoin_eq_flatten] at ih ⊢
    by_cases hc : c = '\n'
    · have hs : stringsSplit '\n' (c :: cs) = [] :: stringsSplit '\n' cs := by
        simp [stringsSplit, hc]
      simp only [hs, List.dropLast_cons_of_ne_nil hne, List.getLast_cons hne]
      simp only [List.map_cons, List.flatten_cons, List.nil_append, List.cons_append,
        List.singleton_append]
      rw [ih, hc]
    · cases hsp : stringsSplit '\n' cs with
      | nil => exact absurd hsp hne
      | cons l ls =>
        have hs : stringsSplit '\n' (c :: cs) = (c :: l) :: ls := by
          simp [stringsSplit, hc, hsp]
        simp only [hsp] at ih
        simp only [hs]
        cases ls with
        | nil =>
          simp only [List.dropLast_single, List.map_nil, List.flatten_nil, List.nil_append,
            List.getLast_singleton] at ih ⊢
          rw [ih]
        | cons l2 ls2 =>
          have hne2 : l2 :: ls2 ≠ [] := List.cons_ne_nil _ _
          simp only [List.dropLast_cons_of_ne_nil hne2, List.getLast_cons hne2,
            List.map_cons, List.flatten_cons, List.cons_append, List.append_assoc] at ih ⊢
          rw [ih]

/-- The input text read from a standard input that ends plainly: the lines that end in a
newline, joined and trimmed. -/
theorem resolveInput_stdin (data : GoString) :
    resolveInput [] { data := data, failure := none } =
      { stderr := str "Reading from stdin (press Ctrl+D when done)...\n",
        inputText := some (stringsTrimSpace
          (stringsJoin ((stringsSplit '\n' data).dropLast.map (fun l => l ++ ['\n'])))) } := by
  simp [resolveInput, readLoop_eof]

/-- When standard input is empty or ends with a newline, the input text is the whole
content, trimmed. -/
theorem resolveInput_stdin_terminated (data : GoString)
    (hlast : (stringsSplit '\n' data).getLast (stringsSplit_ne_nil '\n' data) = []) :
    (resolveInput [] { data := data, failure := none }).inputText =
      some (stringsTrimSpace data) := by
  have h := stringsJoin_lines_append_last data
  rw [hlast, List.append_nil] at h
  rw [resolveInput_stdin, h]

/-- C4, the code at the failing inputs: the characters after the last newline of
standard input are dropped.  With `hello` on standard input the input text is
empty, and both programs end with `No input text provided`; with `a`, newline, `b`
the input text is `a`. -/
theorem resolveInput_drops_unterminated_line :
    (resolveInput [] { data := str "hello", failure := none }).inputText = some [] ∧
      (resolveInput [] { data := str "a\nb", failure := none }).inputText = some (str "a") ∧
      (∀ (os : OS) (marshal : EmbeddingResult ℚ → Except GoString GoString),
        EmbeddingsWrapper.main parseDecimal formatFixed6 marshal os (str "model.gguf") []
            4 0 (str "text") { data := str "hello", failure := none } =
          { exitCode := 1, stdout := [],
            stderr := str "Reading from stdin (press Ctrl+D when done)...\n" ++
              str "Error: No input text provided\n",
            clientTexts := [], executed := [] }) ∧
      (∀ (embeddings : GoString → Int → Except GoString (List ℚ)),
        Embeddings.main formatFixed6 { new := fun _ _ => none, embeddings := embeddings }
            (str "model.gguf") [] 4 0 { data := str "hello", failure := none } =
          { exitCode := 1, stdout := [],
            stderr := str "Loading model from: model.gguf\n" ++
              str "Model loaded successfully\n" ++
              str "Reading from stdin (press Ctrl+D when done)...\n" ++
              str "Error: No input text provided\n",
            clientTexts := [], executed := [] }) := by
  have h1 : (resolveInput [] { data := str "hello", failure := none }).inputText = some [] := by
    rw [resolveInput_stdin]; decide
  have h2 : (resolveInput [] { data := str "a\nb", failure := none }).inputText =
      some (str "a") := by
    rw [resolveInput_stdin]; decide
  refine ⟨h1, h2, ?_, ?_⟩
  · intro os marshal
    have hm : str "model.gguf" ≠ [] := by decide
    simp only [EmbeddingsWrapper.main, hm, if_false, h1, if_true]
    rw [resolveInput_stdin]
  · intro embeddings
    have hm : str "model.gguf" ≠ [] := by decide
    simp only [Embeddings.main, hm, if_false, h1, if_true]
    rw [resolveInput_stdin]
    decide

/-! ## `GenerateEmbeddings`: the claims -/

/-- `GenerateEmbeddings` runs one command, whatever the outcome. -/
theorem GenerateEmbeddings_executed {F : Type} (pf : GoString → Option F) (os : OS)
    (modelPath prompt : GoString) (threads gpuLayers : Int) :
    (GenerateEmbeddings pf os modelPath prompt threads gpuLayers).executed =
      [{ path := embeddingBinary os,
         args := embeddingArgs modelPath prompt threads gpuLayers }] := by
  unfold GenerateEmbeddings
  simp only
  split
  · rfl
  · split
    · rfl
    · split <;> rfl

/-- C5: when the child exits with status zero, the result of `GenerateEmbeddings` is
`parseEmbeddingsOutput` of the captured standard output when that succeeds, whatever
standard error holds; otherwise `parseEmbeddingsOutput` of the captured standard error
when that succeeds; and when both fail it is the error
`failed to parse embeddings output` wrapping the error of the second attempt. -/
theorem GenerateEmbeddings_exit_zero {F : Type} (pf : GoString → Option F) (os : OS)
    (modelPath prompt : GoString) (threads gpuLayers : Int) (stdout stderr : GoString)
    (hrun : os.run { path := embeddingBinary os,
                     args := embeddingArgs modelPath prompt threads gpuLayers } =
      { err := none, stdout := stdout, stderr := stderr }) :
    (GenerateEmbeddings pf os modelPath prompt threads gpuLayers).result =
      match parseEmbeddingsOutput pf stdout with
      | Except.ok embeddings => Except.ok embeddings
      | Except.error _ =>
        match parseEmbeddingsOutput pf stderr with
        | Except.ok embeddings => Except.ok embeddings
        | Except.error err =>
          Except.error (str "failed to parse embeddings output: " ++ err) := by
  unfold GenerateEmbeddings
  simp only [hrun]
  cases parseEmbeddingsOutput pf stdout with
  | ok v => rfl
  | error e =>
    cases parseEmbeddingsOutput pf stderr with
    | ok v => rfl
    | error e2 => rfl

/-- C5, evaluated: the marker line on standard error only, on both streams, and on
neither. -/
theorem GenerateEmbeddings_exit_zero_witness :
    (GenerateEmbeddings parseDecimal
        (osWithBinary none (str "llama: done\n") (str "log\nembedding 0: 1 2.5\n"))
        (str "model.gguf") (str "hi") 4 0).result = Except.ok [mkRat 1 1, mkRat 5 2] ∧
      (GenerateEmbeddings parseDecimal
        (osWithBinary none (str "embedding 0: 3\n") (str "embedding 0: 1 2.5\n"))
        (str "model.gguf") (str "hi") 4 0).result = Except.ok [mkRat 3 1] ∧
      (GenerateEmbeddings parseDecimal
        (osWithBinary none (str "llama: done\n") (str "embedding 0: nothing\n"))
        (str "model.gguf") (str "hi") 4 0).result =
        Except.error
          (str "failed to parse embeddings output: no embeddings found in output") :=
  ⟨(GenerateEmbeddings_exit_zero parseDecimal
      (osWithBinary none (str "llama: done\n") (str "log\nembedding 0: 1 2.5\n"))
      (str "model.gguf") (str "hi") 4 0 (str "llama: done\n")
      (str "log\nembedding 0: 1 2.5\n") (by decide)).trans (by decide),
   (GenerateEmbeddings_exit_zero parseDecimal
      (osWithBinary none (str "embedding 0: 3\n") (str "embedding 0: 1 2.5\n"))
      (str "model.gguf") (str "hi") 4 0 (str "embedding 0: 3\n")
      (str "embedding 0: 1 2.5\n") (by decide)).trans (by decide),
   (GenerateEmbeddings_exit_zero parseDecimal
      (osWithBinary none (str "llama: done\n") (str "embedding 0: nothing\n"))
      (str "model.gguf") (str "hi") 4 0 (str "llama: done\n")
      (str "embedding 0: nothing\n") (by decide)).trans (by decide)⟩

/-- C6: when running the child reports an error, `GenerateEmbeddings` returns the error
`failed to run embedding binary` wrapping that error and the captured standard error,
and no vector; the result is the same for every behaviour of the number parser and
every captured standard output, so neither stream is parsed. -/
theorem GenerateEmbeddings_run_error {F : Type} (pf : GoString → Option F) (os : OS)
    (modelPath prompt : GoString) (threads gpuLayers : Int) (err stdout stderr : GoString)
    (hrun : os.run { path := embeddingBinary os,
                     args := embeddingArgs modelPath prompt threads gpuLayers } =
      { err := some err, stdout := stdout, stderr := stderr }) :
    (GenerateEmbeddings pf os modelPath prompt threads gpuLayers).result =
      Except.error
        (str "failed to run embedding binary: " ++ err ++ str "\nStderr: " ++ stderr) := by
  unfold GenerateEmbeddings
  simp only [hrun]

/-- C6, evaluated: a child that exits with status 1 after writing a marker line to
both streams. -/
theorem GenerateEmbeddings_run_error_witness :
    parseEmbeddingsOutput parseDecimal (str "embedding 0: 1.0\n") = Except.ok [mkRat 1 1] ∧
      (GenerateEmbeddings parseDecimal
        (osWithBinary (some (str "exit status 1")) (str "embedding 0: 1.0\n")
          (str "embedding 0: 1.0\n"))
        (str "model.gguf") (str "hi") 4 0).result =
        Except.error (str
          "failed to run embedding binary: exit status 1\nStderr: embedding 0: 1.0\n") :=
  ⟨by decide,
   (GenerateEmbeddings_run_error parseDecimal
      (osWithBinary (some (str "exit status 1")) (str "embedding 0: 1.0\n")
        (str "embedding 0: 1.0\n"))
      (str "model.gguf") (str "hi") 4 0 (str "exit status 1") (str "embedding 0: 1.0\n")
      (str "embedding 0: 1.0\n") (by decide)).trans (by decide)⟩

/-- C7, as stated, fails: where none of the three candidates exists, `GenerateEmbeddings`
still runs a command, the last candidate, and its error is the error of that run. -/
theorem GenerateEmbeddings_no_binary_counterexample :
    osWithoutBinary.statNotExist (str "../build/bin/embedding") = true ∧
      osWithoutBinary.statNotExist (str "./build/bin/embedding") = true ∧
      osWithoutBinary.statNotExist (str "build/bin/embedding") = true ∧
      (GenerateEmbeddings parseDecimal osWithoutBinary
        (str "model.gguf") (str "hi") 4 0).executed =
        [{ path := str "build/bin/embedding",
           args := [str "-m", str "model.gguf", str "-p", str "hi", str "-t", str "4"] }] ∧
      (GenerateEmbeddings parseDecimal osWithoutBinary
        (str "model.gguf") (str "hi") 4 0).result =
        Except.error (str ("failed to run embedding binary: " ++
          "fork/exec build/bin/embedding: no such file or directory\nStderr: ")) := by
  decide

/-- C7, amended: `GenerateEmbeddings` picks `../build/bin/embedding` unless `os.Stat`
reports it missing, then `./build/bin/embedding` unless that is reported missing, and
else `build/bin/embedding` without looking for it; it runs the path it picked in every
case, and a path that cannot be run gives the error `failed to run embedding binary`. -/
theorem GenerateEmbeddings_binary_choice {F : Type} (pf : GoString → Option F) (os : OS)
    (modelPath prompt : GoString) (threads gpuLayers : Int) :
    embeddingBinary os =
        (if os.statNotExist (str "../build/bin/embedding") = false then
          str "../build/bin/embedding"
        else if os.statNotExist (str "./build/bin/embedding") = false then
          str "./build/bin/embedding"
        else str "build/bin/embedding") ∧
      (GenerateEmbeddings pf os modelPath prompt threads gpuLayers).executed =
        [{ path := embeddingBinary os,
           args := embeddingArgs modelPath prompt threads gpuLayers }] ∧
      ∀ err : GoString,
        (os.run { path := embeddingBinary os,
                  args := embeddingArgs modelPath prompt threads gpuLayers }).err = some err →
        (GenerateEmbeddings pf os modelPath prompt threads gpuLayers).result =
          Except.error (str "failed to run embedding binary: " ++ err ++ str "\nStderr: " ++
            (os.run { path := embeddingBinary os,
                      args := embeddingArgs modelPath prompt threads gpuLayers }).stderr) := by
  refine ⟨?_, GenerateEmbeddings_executed pf os modelPath prompt threads gpuLayers, ?_⟩
  · unfold embeddingBinary
    by_cases h1 : os.statNotExist (str "../build/bin/embedding") = true <;>
      by_cases h2 : os.statNotExist (str "./build/bin/embedding") = true <;>
      simp [h1, h2]
  · intro err herr
    unfold GenerateEmbeddings
    simp only [herr]

/-! ## The input text handed to the inference client -/

theorem stringsTrimSpace_dropWhile (s : GoString) :
    (stringsTrimSpace s).dropWhile isSpace = stringsTrimSpace s := by
  have hpre : stringsTrimSpace s <+: s.dropWhile isSpace :=
    List.rdropWhile_prefix isSpace (s.dropWhile isSpace)
  cases hv : stringsTrimSpace s with
  | nil => rfl
  | cons c t =>
    rw [hv] at hpre
    obtain ⟨w, hw⟩ := hpre
    have hne : s.dropWhile isSpace ≠ [] := by
      rw [← hw]; simp
    have hhead := List.head_dropWhile_not isSpace s hne
    have hc : (s.dropWhile isSpace).head hne = c := by
      simp only [← hw, List.cons_append, List.head_cons]
    rw [hc] at hhead
    simp [List.dropWhile, hhead]

/-- Trimming twice is trimming once. -/
theorem stringsTrimSpace_idem (s : GoString) :
    stringsTrimSpace (stringsTrimSpace s) = stringsTrimSpace s := by
  have h1 := stringsTrimSpace_dropWhile s
  have h2 : List.rdropWhile isSpace (stringsTrimSpace s) = stringsTrimSpace s :=
    List.rdropWhile_idempotent isSpace (s.dropWhile isSpace)
  calc stringsTrimSpace (stringsTrimSpace s)
      = List.rdropWhile isSpace ((stringsTrimSpace s).dropWhile isSpace) := rfl
    _ = List.rdropWhile isSpace (stringsTrimSpace s) := by rw [h1]
    _ = stringsTrimSpace s := h2

/-- The input text is the prompt itself when there is one, and a trimmed text when
it was read from standard input. -/
theorem resolveInput_text (prompt : GoString) (stdin : Stdin) (t : GoString)
    (ht : (resolveInput prompt stdin).inputText = some t) :
    (prompt ≠ [] → t = prompt) ∧ (prompt = [] → stringsTrimSpace t = t) := by
  constructor
  · intro hp
    simp only [resolveInput, hp, ne_eq, not_false_eq_true, if_true, Option.some.injEq] at ht
    exact ht.symm
  · intro hp
    subst hp
    simp only [resolveInput, ne_eq, not_true_eq_false, if_false] at ht
    cases hr : readLoop stdin.failure stdin.data [] with
    | error e => simp [hr] at ht
    | ok lines =>
      simp only [hr, Option.some.injEq] at ht
      rw [← ht, stringsTrimSpace_idem]

/-- C8, as stated, fails: a prompt of one space is handed to the inference client as it
is, though nothing is left of it after trimming; neither program reports
`No input text provided`. -/
theorem main_whitespace_prompt_counterexample :
    stringsTrimSpace (str " ") = [] ∧
      EmbeddingsWrapper.main parseDecimal formatFixed6 marshalIndentWhole
          (osWithBinary none (str "embedding 0: 1 2\n") [])
          (str "model.gguf") (str " ") 4 0 (str "text") { data := [], failure := none } =
        { exitCode := 0,
          stdout := str "Embeddings:\n1.000000, 2.000000\n",
          stderr := str ("Generating embeddings for:  \n" ++
            "Embeddings generated successfully (2 dimensions)\n"),
          clientTexts := [str " "],
          executed := [{ path := str "./build/bin/embedding",
                         args := [str "-m", str "model.gguf", str "-p", str " ",
                                  str "-t", str "4"] }] } ∧
      (Embeddings.main formatFixed6
          { new := fun _ _ => none, embeddings := fun _ _ => Except.ok [mkRat 1 1] }
          (str "model.gguf") (str " ") 4 0 { data := [], failure := none }).clientTexts =
        [str " "] := by
  decide

/-- C8, amended: every text either program hands to the inference client is the
resolved input text and is not empty; it is the prompt flag itself, untrimmed, when
the flag is not empty, and a trimmed text when it was read from standard input.
When the resolved input text is empty, the program writes
`Error: No input text provided`, exits with status 1 and neither calls the inference
client nor runs a command. -/
theorem main_client_text_nonempty {F : Type} (pf : GoString → Option F)
    (fmtF : F → GoString) (marshal : EmbeddingResult F → Except GoString GoString)
    (os : OS) (llama : Embeddings.Llama F) (modelPath prompt : GoString)
    (threads gpuLayers : Int) (outputFormat : GoString) (stdin : Stdin) :
    (∀ t ∈ (EmbeddingsWrapper.main pf fmtF marshal os modelPath prompt threads gpuLayers
            outputFormat stdin).clientTexts ++
          (Embeddings.main fmtF llama modelPath prompt threads gpuLayers stdin).clientTexts,
        t ≠ [] ∧ (resolveInput prompt stdin).inputText = some t ∧
          (prompt ≠ [] → t = prompt) ∧ (prompt = [] → stringsTrimSpace t = t)) ∧
      ((resolveInput prompt stdin).inputText = some [] → modelPath ≠ [] →
        EmbeddingsWrapper.main pf fmtF marshal os modelPath prompt threads gpuLayers
            outputFormat stdin =
          { exitCode := 1, stdout := [],
            stderr := (resolveInput prompt stdin).stderr ++
              str "Error: No input text provided\n",
            clientTexts := [], executed := [] } ∧
        (llama.new modelPath gpuLayers = none →
          Embeddings.main fmtF llama modelPath prompt threads gpuLayers stdin =
            { exitCode := 1, stdout := [],
              stderr := str "Loading model from: " ++ modelPath ++ str "\n" ++
                str "Model loaded successfully\n" ++ (resolveInput prompt stdin).stderr ++
                str "Error: No input text provided\n",
              clientTexts := [], executed := [] })) := by
  have hw : ∀ t ∈ (EmbeddingsWrapper.main pf fmtF marshal os modelPath prompt threads
      gpuLayers outputFormat stdin).clientTexts,
      t ≠ [] ∧ (resolveInput prompt stdin).inputText = some t := by
    intro t ht
    unfold EmbeddingsWrapper.main at ht
    by_cases hm : modelPath = []
    · simp [hm] at ht
    · simp only [hm, if_false] at ht
      cases hr : (resolveInput prompt stdin).inputText with
      | none => simp [hr] at ht
      | some text =>
        simp only [hr] at ht
        by_cases he : text = []
        · simp [he] at ht
        · simp only [he, if_false] at ht
          have hmem : t = text := by
            split at ht <;> simpa using ht
          subst hmem
          exact ⟨he, rfl⟩
  have hl : ∀ t ∈ (Embeddings.main fmtF llama modelPath prompt threads gpuLayers
      stdin).clientTexts,
      t ≠ [] ∧ (resolveInput prompt stdin).inputText = some t := by
    intro t ht
    unfold Embeddings.main at ht
    by_cases hm : modelPath = []
    · simp [hm] at ht
    · simp only [hm, if_false] at ht
      cases hn : llama.new modelPath gpuLayers with
      | some e => simp [hn] at ht
      | none =>
        simp only [hn] at ht
        cases hr : (resolveInput prompt stdin).inputText with
        | none => simp [hr] at ht
        | some text =>
          simp only [hr] at ht
          by_cases he : text = []
          · simp [he] at ht
          · simp only [he, if_false] at ht
            have hmem : t = text := by
              split at ht <;> simpa using ht
            subst hmem
            exact ⟨he, rfl⟩
  refine ⟨?_, ?_⟩
  · intro t ht
    have hboth : t ≠ [] ∧ (resolveInput prompt stdin).inputText = some t := by
      rcases List.mem_append.mp ht with h | h
      · exact hw t h
      · exact hl t h
    exact ⟨hboth.1, hboth.2, resolveInput_text prompt stdin t hboth.2⟩
  · intro hempty hm
    refine ⟨?_, ?_⟩
    · simp [EmbeddingsWrapper.main, hm, hempty]
    · intro hn
      simp [Embeddings.main, hm, hn, hempty]

/-- C8, evaluated: standard input that holds white space only. -/
theorem main_client_text_nonempty_witness :
    EmbeddingsWrapper.main parseDecimal formatFixed6 marshalIndentWhole
        (osWithBinary none (str "embedding 0: 1 2\n") [])
        (str "model.gguf") [] 4 0 (str "text") { data := str " \n\t\n", failure := none } =
      { exitCode := 1, stdout := [],
        stderr := str "Reading from stdin (press Ctrl+D when done)...\n" ++
          str "Error: No input text provided\n",
        clientTexts := [], executed := [] } := by
  have hres := resolveInput_stdin (str " \n\t\n")
  have hempty : (resolveInput [] { data := str " \n\t\n", failure := none }).inputText =
      some [] := by
    rw [hres]; decide
  have h := ((main_client_text_nonempty parseDecimal formatFixed6 marshalIndentWhole
    (osWithBinary none (str "embedding 0: 1 2\n") [])
    { new := fun _ _ => none, embeddings := fun _ _ => Except.ok [] }
    (str "model.gguf") [] 4 0 (str "text")
    { data := str " \n\t\n", failure := none }).2 hempty (by decide)).1
  rw [h, hres]

/-! ## Output: the claims -/

theorem printLoop_succ {F : Type} (fmtF : F → GoString) (embeddings : List F) (i : Nat)
    (first : GoString) :
    first :: printLoop fmtF (i + 1) embeddings =
      List.intersperse (str ", ") (first :: embeddings.map fmtF) := by
  induction embeddings generalizing i first with
  | nil => simp [printLoop]
  | cons val rest ih =>
    simp only [printLoop, List.map_cons, List.intersperse_cons₂]
    rw [← ih (i + 1) (fmtF val)]
    simp

theorem printLoop_intersperse {F : Type} (fmtF : F → GoString) (embeddings : List F) :
    printLoop fmtF 0 embeddings = List.intersperse (str ", ") (embeddings.map fmtF) := by
  cases embeddings with
  | nil => rfl
  | cons val rest =>
    simp only [printLoop, List.map_cons]
    rw [← printLoop_succ fmtF rest 0 (fmtF val)]
    simp

theorem printLoop_length_succ {F : Type} (fmtF : F → GoString) (embeddings : List F)
    (i : Nat) : (printLoop fmtF (i + 1) embeddings).length = 2 * embeddings.length := by
  induction embeddings generalizing i with
  | nil => simp [printLoop]
  | cons val rest ih =>
    simp only [printLoop, List.length_append, List.length_cons, ih (i + 1)]
    simp
    omega

/-- The text loop, for every formatter: it writes the formatted values in the order of
the vector, with the separator `, ` between neighbours and neither before the first nor
after the last. -/
theorem printEmbeddings_joined {F : Type} (fmtF : F → GoString)
    (marshal : EmbeddingResult F → Except GoString GoString) (embeddings : List F) :
    printLoop fmtF 0 embeddings = List.intersperse (str ", ") (embeddings.map fmtF) ∧
      (printLoop fmtF 0 embeddings).length = 2 * embeddings.length - 1 ∧
      printEmbeddings fmtF embeddings = (str ", ").intercalate (embeddings.map fmtF) ∧
      (outputEmbeddings fmtF marshal (str "text") embeddings).2.1 =
        str "Embeddings:\n" ++ (str ", ").intercalate (embeddings.map fmtF) ++ str "\n" := by
  have h1 := printLoop_intersperse fmtF embeddings
  have h3 : printEmbeddings fmtF embeddings =
      (str ", ").intercalate (embeddings.map fmtF) := by
    unfold printEmbeddings List.intercalate
    rw [h1]
  refine ⟨h1, ?_, h3, ?_⟩
  · cases embeddings with
    | nil => rfl
    | cons val rest =>
      simp only [printLoop, List.length_append, List.length_cons,
        printLoop_length_succ fmtF rest 0]
      simp
      omega
  · have hfmt : str "text" ≠ str "json" := by decide
    simp only [outputEmbeddings, hfmt, if_false, h3]

/-- The text loop evaluated on exact values: whole numbers, one value, and values that
need rounding (a tie goes to the even digit). -/
theorem printEmbeddings_joined_examples :
    printEmbeddings formatFixed6 [mkRat 1 1, mkRat 2 1, mkRat 3 1] =
        str "1.000000, 2.000000, 3.000000" ∧
      printEmbeddings formatFixed6 [mkRat (-1) 2] = str "-0.500000" ∧
      printEmbeddings formatFixed6 [mkRat 1 1024, mkRat (-1) (2 ^ 24), mkRat 1 128] =
        str "0.000977, -0.000000, 0.007812" := by
  have h := (printEmbeddings_joined formatFixed6 marshalIndentWhole
    [mkRat 1 1, mkRat 2 1, mkRat 3 1]).2.2.1
  exact ⟨h.trans (by decide), by decide, by decide⟩

/-- The JSON branch of the output block hands `json.MarshalIndent` the struct made of
the vector and its length. -/
theorem outputEmbeddings_json {F : Type} (fmtF : F → GoString)
    (marshal : EmbeddingResult F → Except GoString GoString) (embeddings : List F) :
    outputEmbeddings fmtF marshal (str "json") embeddings =
      match marshal { Embeddings := embeddings, Dimensions := (embeddings.length : Int) } with
      | Except.error err =>
        (1, [], str "Embeddings generated successfully (" ++
          strconvItoa embeddings.length ++ str " dimensions)\n" ++
          str "Error encoding JSON: " ++ err ++ str "\n")
      | Except.ok jsonData =>
        (0, jsonData ++ str "\n", str "Embeddings generated successfully (" ++
          strconvItoa embeddings.length ++ str " dimensions)\n") := by
  simp only [outputEmbeddings, if_true, jsonResult]

/-- C10: when `GenerateEmbeddings` returns a vector and the format is `json`, the struct
`main` builds holds that vector, unchanged, and its length as `Dimensions`; this struct
is what `json.MarshalIndent` is given, and its text, followed by a newline, is the
standard output (an encoding error ends the program with status 1 instead). -/
theorem main_json_result {F : Type} (pf : GoString → Option F) (fmtF : F → GoString)
    (marshal : EmbeddingResult F → Except GoString GoString) (os : OS)
    (modelPath prompt : GoString) (threads gpuLayers : Int) (stdin : Stdin)
    (inputText : GoString) (embeddings : List F)
    (hmodel : modelPath ≠ [])
    (hinput : (resolveInput prompt stdin).inputText = some inputText)
    (hne : inputText ≠ [])
    (hgen : (GenerateEmbeddings pf os modelPath inputText threads gpuLayers).result =
      Except.ok embeddings) :
    (jsonResult embeddings).Embeddings = embeddings ∧
      (jsonResult embeddings).Dimensions = (embeddings.length : Int) ∧
      ((EmbeddingsWrapper.main pf fmtF marshal os modelPath prompt threads gpuLayers
          (str "json") stdin).exitCode,
        (EmbeddingsWrapper.main pf fmtF marshal os modelPath prompt threads gpuLayers
          (str "json") stdin).stdout) =
        match marshal { Embeddings := embeddings, Dimensions := (embeddings.length : Int) } with
        | Except.error _ => (1, [])
        | Except.ok jsonData => (0, jsonData ++ str "\n") := by
  refine ⟨rfl, rfl, ?_⟩
  simp only [EmbeddingsWrapper.main, hmodel, if_false, hinput, hne, hgen,
    outputEmbeddings_json]
  cases marshal { Embeddings := embeddings, Dimensions := (embeddings.length : Int) } <;> rfl

/-- C10, evaluated: the wrapper run with `-format json` on a child that prints the
vector `1 2`. -/
theorem main_json_result_witness :
    (jsonResult [mkRat 1 1, mkRat 2 1]).Embeddings = [mkRat 1 1, mkRat 2 1] ∧
      (jsonResult [mkRat 1 1, mkRat 2 1]).Dimensions = 2 ∧
      ((EmbeddingsWrapper.main parseDecimal formatFixed6 marshalIndentWhole
          (osWithBinary none (str "embedding 0: 1 2\n") [])
          (str "model.gguf") (str "hi") 4 0 (str "json")
          { data := [], failure := none }).exitCode,
        (EmbeddingsWrapper.main parseDecimal formatFixed6 marshalIndentWhole
          (osWithBinary none (str "embedding 0: 1 2\n") [])
          (str "model.gguf") (str "hi") 4 0 (str "json")
          { data := [], failure := none }).stdout) =
        (0, str ("\x7b\n  \"embeddings\": [\n    1,\n    2\n  ],\n" ++
          "  \"dimensions\": 2\n\x7d\n")) := by
  have h := main_json_result parseDecimal formatFixed6 marshalIndentWhole
    (osWithBinary none (str "embedding 0: 1 2\n") [])
    (str "model.gguf") (str "hi") 4 0 { data := [], failure := none }
    (str "hi") [mkRat 1 1, mkRat 2 1] (by decide) (by decide) (by decide) (by decide)
  exact ⟨h.1, h.2.1, h.2.2.trans (by decide)⟩

/-! ## The `%.6f` form -/

theorem toDigitsCore_isDigit (fuel : Nat) :
    ∀ (n : Nat) (acc : List Char), (∀ c ∈ acc, c.isDigit = true) →
      ∀ c ∈ Nat.toDigitsCore 10 fuel n acc, c.isDigit = true := by
  induction fuel with
  | zero => intro n acc hacc; simpa [Nat.toDigitsCore] using hacc
  | succ fuel ih =>
    intro n acc hacc
    have hd : (Nat.digitChar (n % 10)).isDigit = true := by
      have hall : ∀ m, m < 10 → (Nat.digitChar m).isDigit = true := by decide
      exact hall _ (Nat.mod_lt _ (by decide))
    have hacc2 : ∀ c ∈ Nat.digitChar (n % 10) :: acc, c.isDigit = true := by
      intro c hc
      rcases List.mem_cons.mp hc with h | h
      · rw [h]; exact hd
      · exact hacc c h
    simp only [Nat.toDigitsCore]
    split
    · exact hacc2
    · exact ih _ _ hacc2

theorem toDigitsCore_ne_nil (fuel : Nat) :
    ∀ (n : Nat) (acc : List Char), acc ≠ [] → Nat.toDigitsCore 10 fuel n acc ≠ [] := by
  induction fuel with
  | zero => intro n acc hacc; simpa [Nat.toDigitsCore] using hacc
  | succ fuel ih =>
    intro n acc _
    simp only [Nat.toDigitsCore]
    split
    · exact List.cons_ne_nil _ _
    · exact ih _ _ (List.cons_ne_nil _ _)

/-- The decimal form of a number is a non-empty string of digits. -/
theorem repr_digits (n : Nat) :
    (Nat.repr n).toList ≠ [] ∧ ∀ c ∈ (Nat.repr n).toList, c.isDigit = true := by
  have hlist : (Nat.repr n).toList = Nat.toDigitsCore 10 (n + 1) n [] := rfl
  rw [hlist]
  constructor
  · simp only [Nat.toDigitsCore]
    split
    · exact List.cons_ne_nil _ _
    · exact toDigitsCore_ne_nil _ _ _ (List.cons_ne_nil _ _)
  · exact toDigitsCore_isDigit _ _ _ (by simp)

/-- A number below a million, padded, is six digits. -/
theorem padZeros_six (n : Nat) (hn : n < 10 ^ 6) :
    (padZeros 6 (Nat.repr n).toList).length = 6 ∧
      ∀ c ∈ padZeros 6 (Nat.repr n).toList, c.isDigit = true := by
  have hlen : (Nat.repr n).toList.length ≤ 6 := Nat.repr_length n 6 (by decide) hn
  constructor
  · simp only [padZeros, List.length_append, List.length_replicate]
    omega
  · intro c hc
    simp only [padZeros, List.mem_append, List.mem_replicate] at hc
    rcases hc with ⟨_, h⟩ | h
    · rw [h]; decide
    · exact (repr_digits n).2 c h

/-- The fixed-point form is a whole part of one or more digits, a point, and six
digits. -/
theorem fixed6_shape (num den : Nat) :
    ∃ whole fraction : GoString, fixed6 num den = whole ++ '.' :: fraction ∧
      whole ≠ [] ∧ (∀ c ∈ whole, c.isDigit = true) ∧
      fraction.length = 6 ∧ ∀ c ∈ fraction, c.isDigit = true := by
  unfold fixed6
  simp only
  generalize (if 2 * (num * 10 ^ 6 % den) > den ∨
      (2 * (num * 10 ^ 6 % den) = den ∧ num * 10 ^ 6 / den % 2 = 1)
    then num * 10 ^ 6 / den + 1 else num * 10 ^ 6 / den) = scaled
  have hfrac := padZeros_six (scaled % 10 ^ 6) (Nat.mod_lt _ (by decide))
  have hwhole := repr_digits (scaled / 10 ^ 6)
  exact ⟨_, _, by simp, hwhole.1, hwhole.2, hfrac.1, hfrac.2⟩

theorem isFixed6_unsigned (whole fraction : GoString) (hne : whole ≠ [])
    (hwhole : ∀ c ∈ whole, c.isDigit = true) (hlen : fraction.length = 6)
    (hfraction : ∀ c ∈ fraction, c.isDigit = true) :
    isFixed6 (whole ++ '.' :: fraction) = true := by
  cases whole with
  | nil => exact absurd rfl hne
  | cons d ds =>
    have hd : d.isDigit = true := hwhole d (List.mem_cons_self _ _)
    have hminus : d ≠ '-' := by
      intro h
      rw [h] at hd
      exact absurd hd (by decide)
    have hhead : ((d :: ds) ++ '.' :: fraction).head? ≠ some '-' := by
      simpa using hminus
    have hl : ((d :: ds) ++ '.' :: fraction).length = (d :: ds).length + 7 := by
      simp [hlen]
    have h7 : ((d :: ds) ++ '.' :: fraction).length - 7 = (d :: ds).length := by omega
    have h6 : ((d :: ds) ++ '.' :: fraction).length - 6 = (d :: ds).length + 1 := by omega
    unfold isFixed6
    simp only [hhead, if_false, h7, h6]
    rw [List.take_left, List.drop_left]
    have hdrop : List.drop ((d :: ds).length + 1) ((d :: ds) ++ '.' :: fraction) = fraction := by
      rw [← List.drop_drop, List.drop_left]
      rfl
    rw [hdrop]
    have hall1 : (d :: ds).all Char.isDigit = true := List.all_eq_true.mpr hwhole
    have hall2 : fraction.all Char.isDigit = true := List.all_eq_true.mpr hfraction
    simp [hall1, hall2, hlen]

/-- A finite value is written as a fixed-point decimal with six fractional digits. -/
theorem sprintf6_finite (negative : Bool) (magnitude : ℚ) :
    isFixed6 (sprintf6 (GoFloat32.finite negative magnitude)) = true := by
  obtain ⟨whole, fraction, heq, hne, hwhole, hlen, hfraction⟩ :=
    fixed6_shape magnitude.num.natAbs magnitude.den
  have hu := isFixed6_unsigned whole fraction hne hwhole hlen hfraction
  cases negative with
  | false =>
    simpa [sprintf6, heq] using hu
  | true =>
    have hs : sprintf6 (GoFloat32.finite true magnitude) = '-' :: (whole ++ '.' :: fraction) := by
      simp [sprintf6, heq]
    rw [hs]
    unfold isFixed6 at hu ⊢
    cases whole with
    | nil => exact absurd rfl hne
    | cons d ds =>
      have hd : d.isDigit = true := hwhole d (List.mem_cons_self _ _)
      have hminus : d ≠ '-' := by
        intro h
        rw [h] at hd
        exact absurd hd (by decide)
      have hhead : ((d :: ds) ++ '.' :: fraction).head? ≠ some '-' := by
        simpa using hminus
      simp only [hhead, if_false] at hu
      simpa using hu

/-! ## The text rendering of both programs -/

/-- C9, as stated, fails: a vector that holds a NaN, which the wrapper reads from the
token `nan`, is rendered by both programs as `NaN`, which is not a fixed-point decimal
with six fractional digits. -/
theorem main_text_nan_counterexample :
    parseEmbeddingsOutput parseFloat32 (str "embedding 0: nan\n") =
        Except.ok [GoFloat32.nan] ∧
      (EmbeddingsWrapper.main parseFloat32 sprintf6 marshalIndent32
          (osWithBinary none (str "embedding 0: nan\n") [])
          (str "model.gguf") (str "hi") 4 0 (str "text")
          { data := [], failure := none }).stdout = str "Embeddings:\nNaN\n" ∧
      (Embeddings.main sprintf6
          { new := fun _ _ => none, embeddings := fun _ _ => Except.ok [GoFloat32.nan] }
          (str "model.gguf") (str "hi") 4 0
          { data := [], failure := none }).stdout = str "Embeddings:\nNaN\n" ∧
      printEmbeddings sprintf6 [GoFloat32.nan] = str "NaN" ∧
      isFixed6 (str "NaN") = false := by
  decide

/-- C9, amended: when either program reaches its text output with a vector, it exits
with status 0 and its standard output is the line `Embeddings:`, then the values each
formatted with `%.6f`, in the order of the vector, joined by `, ` with no separator
before the first or after the last (for `n` values the loop writes `n` formatted values
and `n - 1` separators), then a newline.  A finite value is formatted as a fixed-point
decimal with six fractional digits; an infinity is written `+Inf` or `-Inf` and a NaN
`NaN`. -/
theorem main_text_rendering (pf : GoString → Option GoFloat32)
    (marshal : EmbeddingResult GoFloat32 → Except GoString GoString) (os : OS)
    (llama : Embeddings.Llama GoFloat32) (modelPath prompt : GoString)
    (threads gpuLayers : Int) (outputFormat : GoString) (stdin : Stdin)
    (inputText : GoString) (embeddings : List GoFloat32)
    (hmodel : modelPath ≠ [])
    (hinput : (resolveInput prompt stdin).inputText = some inputText)
    (hne : inputText ≠ [])
    (hformat : outputFormat ≠ str "json") :
    ((GenerateEmbeddings pf os modelPath inputText threads gpuLayers).result =
          Except.ok embeddings →
        ((EmbeddingsWrapper.main pf sprintf6 marshal os modelPath prompt threads gpuLayers
            outputFormat stdin).exitCode,
          (EmbeddingsWrapper.main pf sprintf6 marshal os modelPath prompt threads gpuLayers
            outputFormat stdin).stdout) =
        (0, str "Embeddings:\n" ++ (str ", ").intercalate (embeddings.map sprintf6) ++
          str "\n")) ∧
      (llama.new modelPath gpuLayers = none →
        llama.embeddings inputText threads = Except.ok embeddings →
        ((Embeddings.main sprintf6 llama modelPath prompt threads gpuLayers stdin).exitCode,
          (Embeddings.main sprintf6 llama modelPath prompt threads gpuLayers stdin).stdout) =
        (0, str "Embeddings:\n" ++ (str ", ").intercalate (embeddings.map sprintf6) ++
          str "\n")) ∧
      printLoop sprintf6 0 embeddings =
        List.intersperse (str ", ") (embeddings.map sprintf6) ∧
      (printLoop sprintf6 0 embeddings).length = 2 * embeddings.length - 1 ∧
      ∀ v ∈ embeddings,
        match v with
        | GoFloat32.finite _ _ => isFixed6 (sprintf6 v) = true
        | GoFloat32.inf negative => sprintf6 v = if negative then str "-Inf" else str "+Inf"
        | GoFloat32.nan => sprintf6 v = str "NaN" := by
  have hloop := printEmbeddings_joined sprintf6 marshal embeddings
  refine ⟨?_, ?_, hloop.1, hloop.2.1, ?_⟩
  · intro hgen
    simp only [EmbeddingsWrapper.main, hmodel, if_false, hinput, hne, hgen,
      outputEmbeddings, hformat, hloop.2.2.1]
  · intro hnew hemb
    simp only [Embeddings.main, hmodel, if_false, hnew, hinput, hne, hemb, hloop.2.2.1]
  · intro v _
    cases v with
    | finite negative magnitude => exact sprintf6_finite negative magnitude
    | inf negative => rfl
    | nan => rfl

/-- C9, evaluated: both programs on the vector of the specification, which the wrapper
reads from the output of its child, and on a vector with a negative zero, a value that
needs rounding and an infinity. -/
theorem main_text_rendering_witness :
    ((EmbeddingsWrapper.main parseFloat32 sprintf6 marshalIndent32
          (osWithBinary none (str "embedding 0: 1 2 3\n") [])
          (str "model.gguf") (str "hi") 4 0 (str "text")
          { data := [], failure := none }).exitCode,
        (EmbeddingsWrapper.main parseFloat32 sprintf6 marshalIndent32
          (osWithBinary none (str "embedding 0: 1 2 3\n") [])
          (str "model.gguf") (str "hi") 4 0 (str "text")
          { data := [], failure := none }).stdout) =
        (0, str "Embeddings:\n1.000000, 2.000000, 3.000000\n") ∧
      ((Embeddings.main sprintf6
          { new := fun _ _ => none,
            embeddings := fun _ _ => Except.ok
              [GoFloat32.finite true (mkRat 0 1), GoFloat32.finite false (mkRat 1 1024),
               GoFloat32.inf false] }
          (str "model.gguf") (str "hi") 4 0 { data := [], failure := none }).exitCode,
        (Embeddings.main sprintf6
          { new := fun _ _ => none,
            embeddings := fun _ _ => Except.ok
              [GoFloat32.finite true (mkRat 0 1), GoFloat32.finite false (mkRat 1 1024),
               GoFloat32.inf false] }
          (str "model.gguf") (str "hi") 4 0 { data := [], failure := none }).stdout) =
        (0, str "Embeddings:\n-0.000000, 0.000977, +Inf\n") := by
  have h1 := (main_text_rendering parseFloat32 marshalIndent32
    (osWithBinary none (str "embedding 0: 1 2 3\n") [])
    { new := fun _ _ => none, embeddings := fun _ _ => Except.ok [] }
    (str "model.gguf") (str "hi") 4 0 (str "text") { data := [], failure := none }
    (str "hi")
    [GoFloat32.finite false (mkRat 1 1), GoFloat32.finite false (mkRat 2 1),
     GoFloat32.finite false (mkRat 3 1)]
    (by decide) (by decide) (by decide) (by decide)).1 (by decide)
  have h2 := (main_text_rendering parseFloat32 marshalIndent32
    (osWithBinary none (str "embedding 0: 1 2 3\n") [])
    { new := fun _ _ => none,
      embeddings := fun _ _ => Except.ok
        [GoFloat32.finite true (mkRat 0 1), GoFloat32.finite false (mkRat 1 1024),
         GoFloat32.inf false] }
    (str "model.gguf") (str "hi") 4 0 (str "text") { data := [], failure := none }
    (str "hi")
    [GoFloat32.finite true (mkRat 0 1), GoFloat32.finite false (mkRat 1 1024),
     GoFloat32.inf false]
    (by decide) (by decide) (by decide) (by decide)).2.1 rfl rfl
  exact ⟨h1.trans (by decide), h2.trans (by decide)⟩

end GoLlama
